import Mathlib

/-!
Verification development for the car-scraping listing reconciliation
pipeline.  The Python sources are shallowly embedded: records become
structures of optional fields, the deduplication / filtering / merging
loops become recursive functions over lists, and the stdlib pieces the
code leans on (urllib.parse.urlsplit and urlunsplit from CPython 3.11,
urllib3.util.retry.Retry) are embedded for the fragments the code
exercises.  Strings are modelled as Lean strings (lists of unicode
scalar values), matching Python strings of code points; character
classes are restricted to ASCII, which is what the scraped data and the
configuration use.
-/

namespace CarScrape

/-! ### Character primitives (Python semantics, ASCII range) -/

/-- Model of the Python test for an ASCII decimal digit, as used by
str.isdigit on ASCII input and by the character set of clean_number. -/
def pyDigit (c : Char) : Bool :=
  decide (48 ≤ c.toNat ∧ c.toNat ≤ 57)

/-- Model of the Python test url[0].isascii() and url[0].isalpha()
from CPython urllib.parse.urlsplit (ASCII letters only). -/
def pyAlpha (c : Char) : Bool :=
  decide ((65 ≤ c.toNat ∧ c.toNat ≤ 90) ∨ (97 ≤ c.toNat ∧ c.toNat ≤ 122))

/-- Model of Python str.lower applied to a single character; the code
only lowercases characters previously validated to be ASCII scheme
characters, for which Python lowercasing is the ASCII shift by 32. -/
def pyLower (c : Char) : Char :=
  if 65 ≤ c.toNat ∧ c.toNat ≤ 90 then Char.ofNat (c.toNat + 32) else c

/-- Conversion of a list of ASCII digit characters to the number they
denote, modelling Python int() on a digit string. -/
def digitsToNat (ds : List Char) : Nat :=
  ds.foldl (fun a c => 10 * a + (c.toNat - 48)) 0

/-- Model of clean_number from the scrapers: keep the digit characters
of the text and parse them as an integer; empty or digit-free input
gives None. -/
def clean_number (text : Option String) : Option Nat :=
  match text with
  | none => none
  | some s =>
    if s = "" then none
    else
      let ds := s.toList.filter pyDigit
      if ds = [] then none else some (digitsToNat ds)

/-! ### URL canonicalization (canonical_url in utils/url.py, over the
CPython 3.11 urllib.parse urlsplit and urlunsplit it calls).  Strings
are modelled as lists of characters; the ValueError raised for
unbalanced IPv6 brackets becomes the none result. -/

/-- Characters that survive in a url: CPython removes tab, carriage
return and newline from the url before parsing. -/
def safeChar (c : Char) : Bool :=
  !(c == '\t' || c == '\r' || c == '\n')

/-- Removal of the unsafe bytes, modelling the replace calls of
urlsplit. -/
def scrubBytes (l : List Char) : List Char :=
  l.filter safeChar

/-- Strip of leading C0-control-or-space characters, modelling the
lstrip call of urlsplit. -/
def lstripControl (l : List Char) : List Char :=
  l.dropWhile (fun c => decide (c.toNat ≤ 32))

/-- Membership in scheme_chars of urllib.parse: ASCII letters and
digits, plus, minus and dot. -/
def scheme_char (c : Char) : Bool :=
  pyAlpha c || pyDigit c || c == '+' || c == '-' || c == '.'

/-- Split at the first colon, returning the parts before and after it
when one exists; models str.find of the colon. -/
def splitColon : List Char → Option (List Char × List Char)
  | [] => none
  | c :: cs =>
    if c = ':' then some ([], cs)
    else
      match splitColon cs with
      | none => none
      | some (a, b) => some (c :: a, b)

/-- Scheme extraction of urlsplit: when the text before the first
colon is non-empty, starts with an ASCII letter and consists of scheme
characters, it is the scheme (lowercased) and parsing continues after
the colon; otherwise the whole input remains to parse. -/
def parseScheme (url : List Char) : List Char × List Char :=
  match splitColon url with
  | none => ([], url)
  | some ([], _) => ([], url)
  | some (c :: pre, post) =>
    if pyAlpha c && (c :: pre).all scheme_char then ((c :: pre).map pyLower, post)
    else ([], url)

/-- Delimiters ending the netloc in _splitnetloc of urllib.parse. -/
def netloc_delim (c : Char) : Bool :=
  c == '/' || c == '?' || c == '#'

/-- Result of urlsplit. -/
structure SplitResult where
  scheme : List Char
  netloc : List Char
  path : List Char
  query : List Char
  fragment : List Char
deriving DecidableEq, Repr

/-- Split at the first hash sign into prospective path and fragment,
modelling str.split with maxsplit one, guarded by the containment
test of urlsplit. -/
def splitFragment (l : List Char) : List Char × List Char :=
  if l.contains '#' then
    (l.takeWhile (fun c => !(c == '#')), (l.dropWhile (fun c => !(c == '#'))).tail)
  else (l, [])

/-- Split at the first question mark into path and query. -/
def splitQuery (l : List Char) : List Char × List Char :=
  if l.contains '?' then
    (l.takeWhile (fun c => !(c == '?')), (l.dropWhile (fun c => !(c == '?'))).tail)
  else (l, [])

/-- Model of urllib.parse.urlsplit (CPython 3.11): sanitize, extract
the scheme, extract the netloc after a double slash with the IPv6
bracket-balance check, then split off fragment and query.  The further
validation CPython applies to bracketed hosts and to non-ASCII netloc
characters is outside this model, which accepts every bracket-balanced
netloc. -/
def urlsplit (url : List Char) : Option SplitResult :=
  let url1 := scrubBytes (lstripControl url)
  let sp := parseScheme url1
  if sp.2.take 2 = ['/', '/'] then
    let after := sp.2.drop 2
    let netloc := after.takeWhile (fun c => !netloc_delim c)
    let rest2 := after.dropWhile (fun c => !netloc_delim c)
    if (netloc.contains '[') != (netloc.contains ']') then none
    else
      let fq := splitFragment rest2
      let pq := splitQuery fq.1
      some ⟨sp.1, netloc, pq.1, pq.2, fq.2⟩
  else
    let fq := splitFragment sp.2
    let pq := splitQuery fq.1
    some ⟨sp.1, [], pq.1, pq.2, fq.2⟩

/-- Schemes that use a network location, modelled from
urllib.parse.uses_netloc of CPython 3.11. -/
def uses_netloc : List (List Char) :=
  (["", "ftp", "http", "gopher", "nntp", "telnet", "imap", "wais", "file", "mms",
    "https", "shttp", "snews", "prospero", "rtsp", "rtsps", "rtspu", "rsync", "svn",
    "svn+ssh", "sftp", "nfs", "git", "git+ssh", "ws", "wss"] : List String).map
    String.toList

/-- Model of urllib.parse.urlunsplit (CPython 3.11): reattach the
authority when a netloc is present, or when the scheme uses a netloc
and the path does not already begin with a double slash; then attach
the scheme, query and fragment when non-empty. -/
def urlunsplit (scheme netloc path query fragment : List Char) : List Char :=
  let url :=
    if netloc ≠ [] ∨ (scheme ≠ [] ∧ scheme ∈ uses_netloc ∧ path.take 2 ≠ ['/', '/']) then
      ['/', '/'] ++ netloc ++
        (if path ≠ [] ∧ path.take 1 ≠ ['/'] then '/' :: path else path)
    else path
  let url := if scheme ≠ [] then scheme ++ ':' :: url else url
  let url := if query ≠ [] then url ++ '?' :: query else url
  if fragment ≠ [] then url ++ '#' :: fragment else url

/-- Model of canonical_url in utils/url.py: urlunsplit of the scheme,
netloc and path of urlsplit, with empty query and fragment. -/
def canonical_url (url : List Char) : Option (List Char) :=
  (urlsplit url).map (fun r => urlunsplit r.scheme r.netloc r.path [] [])

/-! ### The normalized listing record -/

/-- Normalized listing record built by the scrapers (the Python dict
with keys source, title, price, mileage, dealer, location, url,
first_seen).  A key that is absent or bound to None is modelled as
none; price and mileage hold the non-negative integers produced by
clean_number. -/
structure Listing where
  source : Option String
  title : Option String
  price : Option Nat
  mileage : Option Nat
  dealer : Option String
  location : Option String
  url : Option String
  first_seen : Option String
deriving DecidableEq, Repr

/-- Truthiness of the url field, modelling the Python test if not u:
a missing url and an empty url string are both falsy. -/
def Listing.urlKey (r : Listing) : Option String :=
  match r.url with
  | none => none
  | some u => if u = "" then none else some u

/-! ### Intra-run deduplication (dedupe_rows in scrape_craigslist.py
and scrape_carscom.py, identical code) -/

/-- Loop body of dedupe_rows: the seen set is modelled as the list of
url strings added so far. -/
def dedupeGo (seen : List String) : List Listing → List Listing
  | [] => []
  | r :: rs =>
    match r.urlKey with
    | none => r :: dedupeGo seen rs
    | some u =>
      if u ∈ seen then dedupeGo seen rs
      else r :: dedupeGo (u :: seen) rs

/-- Model of dedupe_rows: remove duplicate listings by url, keeping the
first occurrence; records whose url is falsy are always kept. -/
def dedupe_rows (rows : List Listing) : List Listing :=
  dedupeGo [] rows

/-- Specification-side statement of the dedup policy, written from the
spec wording: the first occurrence of each url wins and drops every
later record with the same url, and a record with an empty or unknown
url is never treated as a duplicate and is always kept. -/
def dedupeFirstWins : List Listing → List Listing
  | [] => []
  | r :: rs =>
    match r.urlKey with
    | none => r :: dedupeFirstWins rs
    | some u => r :: dedupeFirstWins (rs.filter fun x => decide (x.urlKey ≠ some u))
termination_by l => l.length
decreasing_by
  all_goals simp only [List.length_cons]
  · omega
  · have := List.length_filter_le (fun x => decide (x.urlKey ≠ some u)) rs
    omega

/-- Helper for relating dedupeGo to dedupeFirstWins: a record is
blocked by the seen set when its url key is already present. -/
def keyBlocked (seen : List String) (r : Listing) : Bool :=
  match r.urlKey with
  | none => false
  | some u => decide (u ∈ seen)

/-! ### Config filter (filter_by_config in the three scrapers) -/

/-- Year check shared by the three filter_by_config implementations:
collect the digit characters among the first four characters of the
title; when there are exactly four of them, the record fails if the
number they form is below YEAR_MIN; in every other case the check
passes. -/
def yearOk (YEAR_MIN : Nat) (title : Option String) : Bool :=
  if (((title.getD "").toList.take 4).filter pyDigit).length = 4 then
    if digitsToNat (((title.getD "").toList.take 4).filter pyDigit) < YEAR_MIN then false
    else true
  else true

namespace Carscom

/-- Keep decision of filter_by_config in scrape_carscom.py (and, with
identical code, scrape_cargurus.py): drop when a known price exceeds
PRICE_MAX, then when a known mileage exceeds MILEAGE_MAX, then when the
year check fails; otherwise keep. -/
def keepRow (PRICE_MAX MILEAGE_MAX YEAR_MIN : Nat) (r : Listing) : Bool :=
  if (match r.price with | some p => decide (p > PRICE_MAX) | none => false) then false
  else if (match r.mileage with | some m => decide (m > MILEAGE_MAX) | none => false) then false
  else yearOk YEAR_MIN r.title

/-- Model of filter_by_config from scrape_carscom.py: the loop keeps,
in order, exactly the rows accepted by keepRow. -/
def filter_by_config (PRICE_MAX MILEAGE_MAX YEAR_MIN : Nat) (rows : List Listing) : List Listing :=
  rows.filter (keepRow PRICE_MAX MILEAGE_MAX YEAR_MIN)

end Carscom

namespace Craigslist

/-- Keep decision of filter_by_config in scrape_craigslist.py: drop
when a known price exceeds PRICE_MAX, then when the year check fails;
otherwise keep.  This variant has no mileage test. -/
def keepRow (PRICE_MAX YEAR_MIN : Nat) (r : Listing) : Bool :=
  if (match r.price with | some p => decide (p > PRICE_MAX) | none => false) then false
  else yearOk YEAR_MIN r.title

/-- Model of filter_by_config from scrape_craigslist.py. -/
def filter_by_config (PRICE_MAX YEAR_MIN : Nat) (rows : List Listing) : List Listing :=
  rows.filter (keepRow PRICE_MAX YEAR_MIN)

end Craigslist

/-- Specification-side reading of the price ceiling: a known price must
not exceed PRICE_MAX, and an unknown price always passes. -/
def priceWithin (PRICE_MAX : Nat) (r : Listing) : Bool :=
  match r.price with
  | some p => decide (p ≤ PRICE_MAX)
  | none => true

/-- Specification-side reading of the mileage ceiling: a known mileage
must not exceed MILEAGE_MAX, and an unknown mileage always passes. -/
def mileageWithin (MILEAGE_MAX : Nat) (r : Listing) : Bool :=
  match r.mileage with
  | some m => decide (m ≤ MILEAGE_MAX)
  | none => true

/-! ### Pagination driver (scrape in scrape_cargurus.py; the same
loop runs per category in scrape_craigslist.py) -/

/-- Outcome of fetching one page, as observed by the pagination loop:
a connection-level error raised by the session (requests.
RequestException after the retry budget), or a response with its
status code and the records the adapter parses from its body. -/
inductive FetchOutcome where
  | err : FetchOutcome
  | resp (status : Nat) (rows : List Listing) : FetchOutcome

namespace Cargurus

/-- Loop body of scrape: at each page, a request error or a non-200
status or an empty parse stops the loop; otherwise the page rows are
accumulated and the next page is tried, up to the remaining page
budget.  The second component counts the pages actually fetched, so
that the stopping behaviour is observable. -/
def scrapeGo (fetch : Nat → FetchOutcome) : Nat → Nat → List Listing × Nat
  | _, 0 => ([], 0)
  | page, n + 1 =>
    match fetch page with
    | .err => ([], 1)
    | .resp status rows =>
      if status ≠ 200 then ([], 1)
      else if rows = [] then ([], 1)
      else
        let rest := scrapeGo fetch (page + 1) n
        (rows ++ rest.1, rest.2 + 1)

/-- Model of scrape from scrape_cargurus.py: iterate pages 1 through
MAX_PAGES accumulating parsed rows, stopping at the first failed
fetch, non-200 status, or empty page. -/
def scrape (MAX_PAGES : Nat) (fetch : Nat → FetchOutcome) : List Listing × Nat :=
  scrapeGo fetch 1 MAX_PAGES

end Cargurus

/-- Stopping test for a page: the fetch errs, the status is not 200,
or the parsed page is empty. -/
def badPage (fetch : Nat → FetchOutcome) (p : Nat) : Bool :=
  match fetch p with
  | .err => true
  | .resp status rows => decide (status ≠ 200) || decide (rows = [])

/-- Records contributed by a page: the parsed rows of a 200 response,
nothing otherwise. -/
def pageRows (fetch : Nat → FetchOutcome) (p : Nat) : List Listing :=
  match fetch p with
  | .err => []
  | .resp status rows => if status = 200 then rows else []

/-- First stopping page at or after the given page within the
remaining budget. -/
def firstBadFrom (fetch : Nat → FetchOutcome) : Nat → Nat → Option Nat
  | _, 0 => none
  | page, n + 1 =>
    if badPage fetch page then some page else firstBadFrom fetch (page + 1) n

/-- First stopping page of a run over pages 1 through MAX_PAGES. -/
def firstBad (MAX_PAGES : Nat) (fetch : Nat → FetchOutcome) : Option Nat :=
  firstBadFrom fetch 1 MAX_PAGES

/-- Listing with every field unknown, used to populate example pages. -/
def blankListing : Listing :=
  { source := none, title := none, price := none, mileage := none,
    dealer := none, location := none, url := none, first_seen := none }

/-- Fetch oracle of the specification example: pages one to three
parse 5, 3, and 0 records and later pages would parse none. -/
def exampleFetch : Nat → FetchOutcome :=
  fun p =>
    if p = 1 then .resp 200 (List.replicate 5 blankListing)
    else if p = 2 then .resp 200 (List.replicate 3 blankListing)
    else .resp 200 []

/-! ### Resilient fetcher retry policy (make_session in
utils/http_client.py and, with identical Retry configuration,
scrape_cargurus.py) -/

/-- Arguments of the urllib3 Retry object as it reaches the session:
the first five are passed explicitly by make_session, and
respect_retry_after_header is the urllib3 default True, which
make_session does not override. -/
structure RetryPolicy where
  total : Nat
  backoff_factor : Nat
  status_forcelist : List Nat
  allowed_methods : List String
  raise_on_status : Bool
  respect_retry_after_header : Bool

/-- Retry configuration constructed by make_session: total 4, backoff
factor 2, forcelist 429, 500, 502, 503, 504, idempotent methods only,
raise_on_status false, and the defaulted respect_retry_after_header
true. -/
def make_session_retry : RetryPolicy :=
  { total := 4, backoff_factor := 2, status_forcelist := [429, 500, 502, 503, 504],
    allowed_methods := ["HEAD", "GET", "OPTIONS"], raise_on_status := false,
    respect_retry_after_header := true }

/-- Statuses urllib3 retries on the strength of a Retry-After header
(Retry.RETRY_AFTER_STATUS_CODES). -/
def RETRY_AFTER_STATUS_CODES : List Nat := [413, 429, 503]

namespace Retry

/-- Modelled from the environment library urllib3 (Retry.is_retry,
with total holding the remaining budget of the current Retry object):
a non-retryable method is never retried; a status in the forcelist is
always retried; otherwise a status in RETRY_AFTER_STATUS_CODES whose
response carries a Retry-After header is retried while the remaining
total is non-zero and the header is respected. -/
def is_retry (p : RetryPolicy) (total : Nat) (method : String) (status : Nat)
    (has_retry_after : Bool) : Bool :=
  if !(decide (method ∈ p.allowed_methods)) then false
  else if status ∈ p.status_forcelist then true
  else decide (total ≠ 0) && p.respect_retry_after_header && has_retry_after &&
    decide (status ∈ RETRY_AFTER_STATUS_CODES)

/-- Modelled from urllib3 Retry.get_backoff_time: zero for the first
retry, then backoff_factor times two to the number of consecutive
errors minus one, capped at BACKOFF_MAX which is 120 seconds. -/
def get_backoff_time (p : RetryPolicy) (consecutive_errors : Nat) : Nat :=
  if consecutive_errors ≤ 1 then 0
  else min 120 (p.backoff_factor * 2 ^ (consecutive_errors - 1))

end Retry

/-- Outcome of a single HTTP request attempt: a connection-level error
or a response with a status code and the presence of a Retry-After
header. -/
inductive Attempt where
  | connError : Attempt
  | status (s : Nat) (has_retry_after : Bool) : Attempt

/-- Modelled from the urlopen retry loop of urllib3: a response whose
status is not retried is returned; a retried status consumes one unit
of the remaining budget, and when the budget is already exhausted the
MaxRetryError of Retry.increment is suppressed under raise_on_status
false, so the last response is returned (it would propagate under
raise_on_status true); a connection-level error likewise consumes
budget, but its exhaustion always propagates as an error with no
response.  The first component counts the requests issued. -/
def runRetriesGo (p : RetryPolicy) (method : String) (outcomes : Nat → Attempt) :
    Nat → Nat → Nat × Option Nat
  | budget, idx =>
    match outcomes idx with
    | .status s hra =>
      if Retry.is_retry p budget method s hra then
        match budget with
        | 0 => if p.raise_on_status then (idx + 1, none) else (idx + 1, some s)
        | b + 1 => runRetriesGo p method outcomes b (idx + 1)
      else (idx + 1, some s)
    | .connError =>
      match budget with
      | 0 => (idx + 1, none)
      | b + 1 => runRetriesGo p method outcomes b (idx + 1)

/-- Requests issued and final result for a sequence of attempt
outcomes under the configured retry policy. -/
def runRetries (p : RetryPolicy) (method : String) (outcomes : Nat → Attempt) :
    Nat × Option Nat :=
  runRetriesGo p method outcomes p.total 0

/-! ### Record normalization (the record constructors of the three
parse functions; wall-clock time enters as the parameter now, standing
for datetime.utcnow().isoformat(timespec equal to seconds)) -/

/-- Python or on two optional strings: the first operand wins when it
is truthy (present and non-empty), otherwise the second operand is the
value of the expression. -/
def pyOr (a b : Option String) : Option String :=
  match a with
  | none => b
  | some s => if s = "" then b else some s

/-- Nested dealer dictionary of a cargurus listing item, for the keys
_row_from_item reads when the dealer value is a dict. -/
structure DealerObj where
  name : Option String
  address : Option String
  location : Option String
deriving DecidableEq, Repr

/-- Raw cargurus listing item restricted to the keys _row_from_item
reads; scalar values are carried as the strings the code renders them
to before clean_number. -/
structure RawItem where
  title : Option String
  name : Option String
  header : Option String
  heading : Option String
  price : Option String
  listingPrice : Option String
  priceString : Option String
  mileage : Option String
  mileageString : Option String
  dealer : Option DealerObj
  dealerName : Option String
  sellerName : Option String
  dealerLocation : Option String
  location : Option String
  canonicalUrl : Option String
  url : Option String
  link : Option String
  detailUrl : Option String
deriving DecidableEq, Repr

/-- Modelled from urllib.parse.urljoin against the fixed base
https://www.cargurus.com, for the reference forms the scraper
produces: network-path references gain the base scheme, absolute paths
are appended to the authority, and other relative paths are resolved
against the empty base path (dot segments are outside this model). -/
def urljoinCargurus (rel : String) : String :=
  if rel.startsWith "//" then "https:" ++ rel
  else if rel.startsWith "/" then "https://www.cargurus.com" ++ rel
  else "https://www.cargurus.com/" ++ rel

namespace Cargurus

/-- Model of _row_from_item in scrape_cargurus.py: build the
normalized row from a listing item.  The returned dict carries no
first_seen key, which the model renders as first_seen none. -/
def _row_from_item (item : RawItem) : Listing :=
  let title := pyOr (pyOr (pyOr item.title item.name) item.header) item.heading
  let priceRaw := pyOr (pyOr item.price item.listingPrice) item.priceString
  let price := match priceRaw with
    | none => none
    | some s => clean_number (some s)
  let mileageRaw := pyOr item.mileage item.mileageString
  let mileage := match mileageRaw with
    | none => none
    | some s => clean_number (some s)
  let dealer0 : Option String := match item.dealer with
    | some dobj => dobj.name
    | none => none
  let dealer := pyOr (pyOr dealer0 item.dealerName) item.sellerName
  let loc0 : Option String := match item.dealer with
    | some dobj => pyOr dobj.address dobj.location
    | none => none
  let location := pyOr (pyOr loc0 item.dealerLocation) item.location
  let url0 := pyOr (pyOr (pyOr item.canonicalUrl item.url) item.link) item.detailUrl
  let url := match url0 with
    | none => none
    | some s =>
      if s = "" then some s
      else if s.startsWith "http" then some s
      else some (urljoinCargurus s)
  { source := some "cargurus", title := title, price := price, mileage := mileage,
    dealer := dealer, location := location, url := url, first_seen := none }

end Cargurus

namespace Craigslist

/-- Record constructed per parsed entry by parse_listings in
scrape_craigslist.py: the dict literal sets first_seen to the current
UTC time at seconds precision, received here as now. -/
def rowFromItem (now : String) (title : Option String) (price : Option Nat)
    (location url : Option String) : Listing :=
  { source := some "craigslist", title := title, price := price, mileage := none,
    dealer := none, location := location, url := url, first_seen := some now }

end Craigslist

namespace Carscom

/-- Record constructed per vehicle card by parse_listings in
scrape_carscom.py, with first_seen set to the current UTC time at
seconds precision, received here as now. -/
def rowFromCard (now : String) (title : Option String) (price mileage : Option Nat)
    (dealer location url : Option String) : Listing :=
  { source := some "cars.com", title := title, price := price, mileage := mileage,
    dealer := dealer, location := location, url := url, first_seen := some now }

end Carscom

/-- Concrete cargurus listing item exercising the normal path of
_row_from_item. -/
def exampleItem : RawItem :=
  { title := some "2019 Honda Civic", name := none, header := none, heading := none,
    price := some "5000", listingPrice := none, priceString := none,
    mileage := some "60000", mileageString := none,
    dealer := none, dealerName := none, sellerName := none,
    dealerLocation := none, location := none,
    canonicalUrl := some "https://www.cargurus.com/Cars/l-x", url := none,
    link := none, detailUrl := none }

/-! ### Cross-run merge (merge_csv_files in data/merge_results.py) -/

/-- Lexicographic comparison of two character lists by code point,
modelling the Python string less-than used on first_seen values. -/
def strLtChars : List Char → List Char → Bool
  | [], [] => false
  | [], _ :: _ => true
  | _ :: _, [] => false
  | a :: as, b :: bs =>
    if a < b then true
    else if b < a then false
    else strLtChars as bs

/-- Python string less-than (code-point lexicographic order). -/
def pyStrLt (a b : String) : Bool :=
  strLtChars a.toList b.toList

/-- Row of a persisted CSV file as read by csv.DictReader and projected
onto the FIELDS list of merge_results.py; a missing column is none. -/
structure CsvRow where
  source : Option String
  title : Option String
  price : Option String
  mileage : Option String
  dealer : Option String
  location : Option String
  url : Option String
  first_seen : Option String
deriving DecidableEq, Repr

/-- Truthiness of the url column, modelling if not url: continue in
merge_csv_files. -/
def CsvRow.urlKey (r : CsvRow) : Option String :=
  match r.url with
  | none => none
  | some u => if u = "" then none else some u

/-- Value of row.get a first_seen or the empty string, modelling the
expression data.get of first_seen or the empty string in the merge. -/
def CsvRow.fs (r : CsvRow) : String :=
  r.first_seen.getD ""

/-- Replacement test of the merge loop: the incoming row wins when it
carries a non-empty first_seen and either the retained row has none or
the incoming one is strictly smaller in string order. -/
def shouldReplace (existing data : CsvRow) : Bool :=
  decide (data.fs ≠ "" ∧ (existing.fs = "" ∨ pyStrLt data.fs existing.fs = true))

/-- Lookup in the insertion-ordered association list modelling the
Python dict merged. -/
def lookupKey : List (String × CsvRow) → String → Option CsvRow
  | [], _ => none
  | (k, v) :: rest, u => if k = u then some v else lookupKey rest u

/-- In-place value update of the Python dict merged: assignment to an
existing key keeps its position. -/
def replaceKey : List (String × CsvRow) → String → CsvRow → List (String × CsvRow)
  | [], _, _ => []
  | (k, v) :: rest, u, d => if k = u then (k, d) :: rest else (k, v) :: replaceKey rest u d

/-- Body of the row loop of merge_csv_files: skip rows with a falsy
url; otherwise insert the row under its url, or conditionally replace
the retained row per shouldReplace. -/
def mergeStep (m : List (String × CsvRow)) (row : CsvRow) : List (String × CsvRow) :=
  match row.urlKey with
  | none => m
  | some u =>
    match lookupKey m u with
    | some existing => if shouldReplace existing row then replaceKey m u row else m
    | none => m ++ [(u, row)]

/-- State of the dict merged after processing all rows of all input
files, in file-then-row order. -/
def mergeEntries (rows : List CsvRow) : List (String × CsvRow) :=
  rows.foldl mergeStep []

/-- Model of merge_csv_files: the returned merged rows are the dict
values in insertion order, for the concatenated rows of the input
datasets taken in processing order. -/
def merge_csv_files (datasets : List (List CsvRow)) : List CsvRow :=
  (mergeEntries datasets.flatten).map Prod.snd

/-- Group of input rows sharing the url key u. -/
def urlGroup (u : String) (rows : List CsvRow) : List CsvRow :=
  rows.filter (fun r => decide (r.urlKey = some u))

/-- First occurrence of each string in order, with an accumulator of
strings already seen; specification-side description of which url keys
the merge produces. -/
def firstOccAux (seen : List String) : List String → List String
  | [] => []
  | u :: us => if u ∈ seen then firstOccAux seen us else u :: firstOccAux (u :: seen) us

/-- Distinct urls in first-encounter order. -/
def firstOccurrences (l : List String) : List String :=
  firstOccAux [] l

/-- Invariant of the merge loop relating the dict state m to the list
of rows processed so far: keys are distinct, every entry is stored
under the url key of its row, every processed row with a url has an
entry, and every entry holds a whole input row of its url group whose
first_seen is minimal among the non-empty first_seen values of the
group. -/
def MergeInv (processed : List CsvRow) (m : List (String × CsvRow)) : Prop :=
  (m.map Prod.fst).Nodup ∧
  (∀ e ∈ m, (e.2).urlKey = some e.1) ∧
  (∀ r ∈ processed, ∀ u, r.urlKey = some u → u ∈ m.map Prod.fst) ∧
  (∀ u v, (u, v) ∈ m →
    v ∈ urlGroup u processed ∧
    ∀ r ∈ urlGroup u processed, r.fs ≠ "" → (v.fs ≠ "" ∧ pyStrLt r.fs v.fs = false))

/-! ### Concrete rows used by witnesses and counterexamples -/

/-- Row of the specification example: url u1 observed later. -/
def rowA1 : CsvRow :=
  { source := some "cars.com", title := some "Car A", price := some "100",
    mileage := none, dealer := none, location := none,
    url := some "u1", first_seen := some "2024-01-02T00:00:00" }

/-- Row of the specification example: url u1 observed earlier. -/
def rowB1 : CsvRow :=
  { source := some "craigslist", title := some "Car B", price := some "200",
    mileage := none, dealer := none, location := none,
    url := some "u1", first_seen := some "2024-01-01T00:00:00" }

/-- Row with a distinct url and no first_seen. -/
def rowD3 : CsvRow :=
  { source := some "cargurus", title := some "Car D", price := some "300",
    mileage := none, dealer := none, location := none,
    url := some "u3", first_seen := none }

/-- Row with no url at all. -/
def noUrlRow : CsvRow :=
  { source := some "craigslist", title := some "A", price := none,
    mileage := none, dealer := none, location := none,
    url := none, first_seen := none }

/-- Row sharing the url u3 with rowD3 but carrying a first_seen. -/
def rowE3 : CsvRow :=
  { source := some "cars.com", title := some "Car E", price := some "500",
    mileage := none, dealer := none, location := none,
    url := some "u3", first_seen := some "2024-03-01T00:00:00" }

/-- Record with an unknown price and a very large known mileage, used
to exercise the mileage ceiling. -/
def highMileageRow : Listing :=
  { source := some "craigslist", title := none, price := none,
    mileage := some 999999, dealer := none, location := none,
    url := some "https://example.org/a", first_seen := none }

/-- Record with a known price comfortably below the ceiling. -/
def cheapRow : Listing :=
  { source := some "cars.com", title := some "2019 Honda Civic", price := some 500,
    mileage := some 60000, dealer := none, location := none,
    url := some "https://example.org/b", first_seen := none }

/-! ### Theorems -/

theorem dedupeGo_eq_firstWins (seen : List String) (rows : List Listing) :
    dedupeGo seen rows = dedupeFirstWins (rows.filter fun r => !keyBlocked seen r) := by
  induction rows generalizing seen with
  | nil => simp [dedupeGo, dedupeFirstWins]
  | cons r rs ih =>
    cases hk : r.urlKey with
    | none =>
      have hb : keyBlocked seen r = false := by simp [keyBlocked, hk]
      simp only [dedupeGo, hk, List.filter_cons, hb, Bool.not_false, if_pos]
      rw [dedupeFirstWins, hk]
      simp only [ih]
    | some u =>
      by_cases hu : u ∈ seen
      · have hb : keyBlocked seen r = true := by simp [keyBlocked, hk, hu]
        simp only [dedupeGo, hk, if_pos hu, List.filter_cons, hb, Bool.not_true]
        simp only [Bool.false_eq_true, if_neg, ih]
        rfl
      · have hb : keyBlocked seen r = false := by simp [keyBlocked, hk, hu]
        simp only [dedupeGo, hk, if_neg hu, List.filter_cons, hb, Bool.not_false, if_pos]
        rw [dedupeFirstWins]
        simp only [hk]
        rw [ih (u :: seen), List.filter_filter]
        congr 1
        apply congrArg
        apply List.filter_congr
        intro x _
        cases hx : x.urlKey with
        | none => simp [keyBlocked, hx]
        | some v =>
          by_cases hv : v = u
          · simp [keyBlocked, hx, hv, hu]
          · by_cases hvs : v ∈ seen <;> simp [keyBlocked, hx, hv, hvs]

/-- C3: dedupe keeps exactly the first occurrence of each url scanning
in input order, dropping later records with an already-seen url and
keeping every record whose url is empty or unknown: dedupe_rows agrees
with the first-occurrence-wins specification on every input list. -/
theorem dedupe_rows_first_occurrence_wins (rows : List Listing) :
    dedupe_rows rows = dedupeFirstWins rows := by
  rw [dedupe_rows, dedupeGo_eq_firstWins]
  congr 1
  have : ∀ r ∈ rows, (!keyBlocked [] r) = true := by
    intro r _
    cases hk : r.urlKey <;> simp [keyBlocked, hk]
  rw [List.filter_congr (q := fun _ => true) (by intro x hx; simp [this x hx])]
  exact List.filter_true rows

theorem strLtChars_irrefl (l : List Char) : strLtChars l l = false := by
  induction l with
  | nil => rfl
  | cons a as ih => simp [strLtChars, lt_irrefl, ih]

theorem strLtChars_trans {a b c : List Char} (h1 : strLtChars a b = true)
    (h2 : strLtChars b c = true) : strLtChars a c = true := by
  induction a generalizing b c with
  | nil =>
    cases b with
    | nil => simp [strLtChars] at h1
    | cons y ys =>
      cases c with
      | nil => simp [strLtChars] at h2
      | cons z zs => simp [strLtChars]
  | cons x xs ih =>
    cases b with
    | nil => simp [strLtChars] at h1
    | cons y ys =>
      cases c with
      | nil => simp [strLtChars] at h2
      | cons z zs =>
        rw [strLtChars] at h1 h2 ⊢
        by_cases hxy : x < y
        · by_cases hyz : y < z
          · rw [if_pos (lt_trans hxy hyz)]
          · rw [if_neg hyz] at h2
            by_cases hzy : z < y
            · simp [hzy] at h2
            · have : y = z := le_antisymm (le_of_not_lt hzy) (le_of_not_lt hyz)
              subst this
              rw [if_pos hxy]
        · rw [if_neg hxy] at h1
          by_cases hyx : y < x
          · simp [hyx] at h1
          · have hxyeq : x = y := le_antisymm (le_of_not_lt hyx) (le_of_not_lt hxy)
            subst hxyeq
            rw [if_neg (lt_irrefl x)] at h1
            by_cases hxz : x < z
            · rw [if_pos hxz]
            · rw [if_neg hxz] at h2 ⊢
              by_cases hzx : z < x
              · simp [hzx] at h2
              · rw [if_neg hzx] at h2 ⊢
                exact ih h1 h2

theorem pyStrLt_irrefl (s : String) : pyStrLt s s = false :=
  strLtChars_irrefl s.toList

theorem pyStrLt_trans {a b c : String} (h1 : pyStrLt a b = true)
    (h2 : pyStrLt b c = true) : pyStrLt a c = true :=
  strLtChars_trans h1 h2

theorem lookupKey_eq_none_iff (m : List (String × CsvRow)) (u : String) :
    lookupKey m u = none ↔ u ∉ m.map Prod.fst := by
  induction m with
  | nil => simp [lookupKey]
  | cons e rest ih =>
    obtain ⟨k, v⟩ := e
    by_cases hk : k = u
    · subst hk
      simp [lookupKey]
    · simp [lookupKey, hk, ih, Ne.symm hk]

theorem lookupKey_mem {m : List (String × CsvRow)} {u : String} {v : CsvRow}
    (h : lookupKey m u = some v) : (u, v) ∈ m := by
  induction m with
  | nil => simp [lookupKey] at h
  | cons e rest ih =>
    obtain ⟨k, w⟩ := e
    by_cases hk : k = u
    · subst hk
      rw [lookupKey, if_pos rfl] at h
      injection h with h
      subst h
      exact List.mem_cons_self _ _
    · rw [lookupKey, if_neg hk] at h
      exact List.mem_cons_of_mem _ (ih h)

theorem lookupKey_of_mem_nodup {m : List (String × CsvRow)} {u : String} {v : CsvRow}
    (hnd : (m.map Prod.fst).Nodup) (h : (u, v) ∈ m) : lookupKey m u = some v := by
  induction m with
  | nil => simp at h
  | cons e rest ih =>
    obtain ⟨k, w⟩ := e
    rw [List.map_cons, List.nodup_cons] at hnd
    rcases List.mem_cons.mp h with heq | hmem
    · injection heq with h1 h2
      subst h1; subst h2
      simp [lookupKey]
    · have hku : k ≠ u := by
        intro hk
        subst hk
        exact hnd.1 (List.mem_map.mpr ⟨(k, v), hmem, rfl⟩)
      rw [lookupKey, if_neg hku]
      exact ih hnd.2 hmem

theorem map_fst_replaceKey (m : List (String × CsvRow)) (u : String) (d : CsvRow) :
    (replaceKey m u d).map Prod.fst = m.map Prod.fst := by
  induction m with
  | nil => rfl
  | cons e rest ih =>
    obtain ⟨k, v⟩ := e
    by_cases hk : k = u
    · simp [replaceKey, hk]
    · simp [replaceKey, hk, ih]

theorem replaceKey_mem_forward {m : List (String × CsvRow)} {u : String} {d : CsvRow}
    {a : String} {w : CsvRow} (hnd : (m.map Prod.fst).Nodup)
    (h : (a, w) ∈ replaceKey m u d) :
    (a = u ∧ w = d) ∨ ((a, w) ∈ m ∧ a ≠ u) := by
  induction m with
  | nil => simp [replaceKey] at h
  | cons e rest ih =>
    obtain ⟨k, v⟩ := e
    rw [List.map_cons, List.nodup_cons] at hnd
    by_cases hk : k = u
    · subst hk
      rw [replaceKey, if_pos rfl] at h
      rcases List.mem_cons.mp h with heq | hmem
      · injection heq with h1 h2
        exact Or.inl ⟨h1, h2⟩
      · refine Or.inr ⟨List.mem_cons_of_mem _ hmem, ?_⟩
        intro hau
        subst hau
        exact hnd.1 (List.mem_map.mpr ⟨(a, w), hmem, rfl⟩)
    · rw [replaceKey, if_neg hk] at h
      rcases List.mem_cons.mp h with heq | hmem
      · injection heq with h1 h2
        subst h1; subst h2
        exact Or.inr ⟨List.mem_cons_self _ _, hk⟩
      · rcases ih hnd.2 hmem with h1 | h2
        · exact Or.inl h1
        · exact Or.inr ⟨List.mem_cons_of_mem _ h2.1, h2.2⟩

theorem firstOccAux_congr {s₁ s₂ : List String} (l : List String)
    (h : ∀ x, x ∈ s₁ ↔ x ∈ s₂) : firstOccAux s₁ l = firstOccAux s₂ l := by
  induction l generalizing s₁ s₂ with
  | nil => rfl
  | cons u us ih =>
    by_cases hu : u ∈ s₁
    · rw [firstOccAux, if_pos hu, firstOccAux, if_pos ((h u).mp hu)]
      exact ih h
    · rw [firstOccAux, if_neg hu, firstOccAux, if_neg (fun hx => hu ((h u).mpr hx))]
      congr 1
      apply ih
      intro x
      simp only [List.mem_cons]
      rw [h x]

theorem urlGroup_append_one (u : String) (l : List CsvRow) (row : CsvRow) :
    urlGroup u (l ++ [row]) =
      urlGroup u l ++ (if row.urlKey = some u then [row] else []) := by
  by_cases h : row.urlKey = some u <;>
    simp [urlGroup, List.filter_append, List.filter_cons, h]

theorem mem_urlGroup_key {u : String} {l : List CsvRow} {x : CsvRow}
    (h : x ∈ urlGroup u l) : x.urlKey = some u := by
  have := List.mem_filter.mp h
  simpa using this.2

theorem mergeStep_none {m : List (String × CsvRow)} {row : CsvRow}
    (hk : row.urlKey = none) : mergeStep m row = m := by
  simp [mergeStep, hk]

theorem mergeStep_insert {m : List (String × CsvRow)} {row : CsvRow} {u : String}
    (hk : row.urlKey = some u) (hl : lookupKey m u = none) :
    mergeStep m row = m ++ [(u, row)] := by
  simp [mergeStep, hk, hl]

theorem mergeStep_replace {m : List (String × CsvRow)} {row : CsvRow} {u : String}
    {ex : CsvRow} (hk : row.urlKey = some u) (hl : lookupKey m u = some ex)
    (hr : shouldReplace ex row = true) : mergeStep m row = replaceKey m u row := by
  simp [mergeStep, hk, hl, hr]

theorem mergeStep_keep {m : List (String × CsvRow)} {row : CsvRow} {u : String}
    {ex : CsvRow} (hk : row.urlKey = some u) (hl : lookupKey m u = some ex)
    (hr : shouldReplace ex row = false) : mergeStep m row = m := by
  simp [mergeStep, hk, hl, hr]

theorem mergeStep_inv {processed : List CsvRow} {m : List (String × CsvRow)}
    (hInv : MergeInv processed m) (row : CsvRow) :
    MergeInv (processed ++ [row]) (mergeStep m row) := by
  obtain ⟨hnd, hlink, hcomp, hmin⟩ := hInv
  cases hk : row.urlKey with
  | none =>
    rw [mergeStep_none hk]
    refine ⟨hnd, hlink, ?_, ?_⟩
    · intro r hr u hu
      rcases List.mem_append.mp hr with hr | hr
      · exact hcomp r hr u hu
      · rw [List.mem_singleton] at hr
        subst hr
        rw [hk] at hu
        cases hu
    · intro u v hv
      have hne : row.urlKey ≠ some u := by
        rw [hk]
        intro h
        cases h
      rw [urlGroup_append_one, if_neg hne, List.append_nil]
      exact hmin u v hv
  | some u0 =>
    cases hl : lookupKey m u0 with
    | none =>
      rw [mergeStep_insert hk hl]
      have hu0 : u0 ∉ m.map Prod.fst := (lookupKey_eq_none_iff m u0).mp hl
      have hempty : urlGroup u0 processed = [] := by
        rw [List.eq_nil_iff_forall_not_mem]
        intro x hx
        have hxk := mem_urlGroup_key hx
        have hxp : x ∈ processed := (List.mem_filter.mp hx).1
        exact hu0 (hcomp x hxp u0 hxk)
      refine ⟨?_, ?_, ?_, ?_⟩
      · rw [List.map_append, List.nodup_append]
        refine ⟨hnd, by simp, ?_⟩
        intro x hx hx2
        simp only [List.map_cons, List.map_nil, List.mem_singleton] at hx2
        subst hx2
        exact hu0 hx
      · intro e he
        rcases List.mem_append.mp he with he | he
        · exact hlink e he
        · rw [List.mem_singleton] at he
          subst he
          exact hk
      · intro r hr u hu
        rw [List.map_append]
        rcases List.mem_append.mp hr with hr | hr
        · exact List.mem_append_left _ (hcomp r hr u hu)
        · rw [List.mem_singleton] at hr
          subst hr
          rw [hk] at hu
          injection hu with hu
          subst hu
          exact List.mem_append_right _ (by simp)
      · intro u v hv
        rcases List.mem_append.mp hv with hv | hv
        · have humem : u ∈ m.map Prod.fst := List.mem_map.mpr ⟨(u, v), hv, rfl⟩
          have hne : row.urlKey ≠ some u := by
            rw [hk]
            intro h
            injection h with h
            rw [h] at hu0
            exact hu0 humem
          rw [urlGroup_append_one, if_neg hne, List.append_nil]
          exact hmin u v hv
        · rw [List.mem_singleton, Prod.mk.injEq] at hv
          obtain ⟨h1, h2⟩ := hv
          subst h1
          subst h2
          rw [urlGroup_append_one, if_pos hk, hempty, List.nil_append]
          refine ⟨by simp, ?_⟩
          intro r hr hfs
          rw [List.mem_singleton] at hr
          subst hr
          exact ⟨hfs, pyStrLt_irrefl _⟩
    | some ex =>
      have hexm : (u0, ex) ∈ m := lookupKey_mem hl
      have hu0mem : u0 ∈ m.map Prod.fst := List.mem_map.mpr ⟨(u0, ex), hexm, rfl⟩
      by_cases hrep : shouldReplace ex row = true
      · rw [mergeStep_replace hk hl hrep]
        rw [shouldReplace, decide_eq_true_eq] at hrep
        obtain ⟨hrfs, hor⟩ := hrep
        refine ⟨?_, ?_, ?_, ?_⟩
        · rw [map_fst_replaceKey]
          exact hnd
        · intro e he
          obtain ⟨a, w⟩ := e
          rcases replaceKey_mem_forward hnd he with ⟨h1, h2⟩ | ⟨h1, _⟩
          · subst h1
            subst h2
            exact hk
          · exact hlink (a, w) h1
        · intro r hr u hu
          rw [map_fst_replaceKey]
          rcases List.mem_append.mp hr with hr | hr
          · exact hcomp r hr u hu
          · rw [List.mem_singleton] at hr
            subst hr
            rw [hk] at hu
            injection hu with hu
            subst hu
            exact hu0mem
        · intro u v hv
          rcases replaceKey_mem_forward hnd hv with ⟨h1, h2⟩ | ⟨h1, hne⟩
          · rw [h1, h2]
            have hold := hmin u0 ex hexm
            rw [urlGroup_append_one, if_pos hk]
            refine ⟨List.mem_append_right _ (by simp), ?_⟩
            intro r hr hfs
            rcases List.mem_append.mp hr with hr | hr
            · have hex2 := hold.2 r hr hfs
              have hlt : pyStrLt row.fs ex.fs = true := by
                rcases hor with h | h
                · exact absurd h hex2.1
                · exact h
              refine ⟨hrfs, ?_⟩
              by_contra hcon
              simp only [Bool.not_eq_false] at hcon
              have htr := pyStrLt_trans hcon hlt
              rw [hex2.2] at htr
              cases htr
            · rw [List.mem_singleton] at hr
              subst hr
              exact ⟨hrfs, pyStrLt_irrefl _⟩
          · have hne2 : row.urlKey ≠ some u := by
              rw [hk]
              intro h
              injection h with h
              exact hne h.symm
            rw [urlGroup_append_one, if_neg hne2, List.append_nil]
            exact hmin u v h1
      · have hrepf : shouldReplace ex row = false := by
          cases hb : shouldReplace ex row
          · rfl
          · exact absurd hb hrep
        rw [mergeStep_keep hk hl hrepf]
        rw [shouldReplace, decide_eq_true_eq] at hrep
        refine ⟨hnd, hlink, ?_, ?_⟩
        · intro r hr u hu
          rcases List.mem_append.mp hr with hr | hr
          · exact hcomp r hr u hu
          · rw [List.mem_singleton] at hr
            subst hr
            rw [hk] at hu
            injection hu with hu
            subst hu
            exact hu0mem
        · intro u v hv
          by_cases hueq : u = u0
          · subst hueq
            have hlv := lookupKey_of_mem_nodup hnd hv
            rw [hl] at hlv
            injection hlv with hlv
            subst hlv
            rw [urlGroup_append_one, if_pos hk]
            refine ⟨List.mem_append_left _ (hmin _ ex hexm).1, ?_⟩
            intro r hr hfs
            rcases List.mem_append.mp hr with hr | hr
            · exact (hmin _ ex hexm).2 r hr hfs
            · rw [List.mem_singleton] at hr
              subst hr
              have h2 : ¬(ex.fs = "" ∨ pyStrLt r.fs ex.fs = true) := fun h => hrep ⟨hfs, h⟩
              refine ⟨fun h => h2 (Or.inl h), ?_⟩
              by_contra hc
              simp only [Bool.not_eq_false] at hc
              exact h2 (Or.inr hc)
          · have hne2 : row.urlKey ≠ some u := by
              rw [hk]
              intro h
              injection h with h
              exact hueq h.symm
            rw [urlGroup_append_one, if_neg hne2, List.append_nil]
            exact hmin u v hv

theorem foldl_merge_inv {processed : List CsvRow} {m : List (String × CsvRow)}
    (hInv : MergeInv processed m) (rows : List CsvRow) :
    MergeInv (processed ++ rows) (List.foldl mergeStep m rows) := by
  induction rows generalizing processed m with
  | nil => simpa using hInv
  | cons r rs ih =>
    rw [List.foldl_cons]
    have h := ih (mergeStep_inv hInv r)
    rwa [List.append_assoc, List.singleton_append] at h

theorem mergeEntries_inv (rows : List CsvRow) : MergeInv rows (mergeEntries rows) := by
  have h0 : MergeInv [] ([] : List (String × CsvRow)) := by
    refine ⟨List.nodup_nil, ?_, ?_, ?_⟩ <;> simp
  simpa using foldl_merge_inv h0 rows

theorem map_fst_foldl_mergeStep (rows : List CsvRow) :
    ∀ m : List (String × CsvRow),
      (List.foldl mergeStep m rows).map Prod.fst =
        m.map Prod.fst ++ firstOccAux (m.map Prod.fst) (rows.filterMap CsvRow.urlKey) := by
  induction rows with
  | nil =>
    intro m
    simp [firstOccAux]
  | cons r rs ih =>
    intro m
    rw [List.foldl_cons]
    cases hk : r.urlKey with
    | none =>
      rw [mergeStep_none hk, ih m, List.filterMap_cons_none hk]
    | some u0 =>
      rw [List.filterMap_cons_some hk]
      cases hl : lookupKey m u0 with
      | some ex =>
        have hu0 : u0 ∈ m.map Prod.fst :=
          List.mem_map.mpr ⟨(u0, ex), lookupKey_mem hl, rfl⟩
        rw [firstOccAux, if_pos hu0]
        by_cases hrep : shouldReplace ex r = true
        · rw [mergeStep_replace hk hl hrep, ih, map_fst_replaceKey]
        · have hrepf : shouldReplace ex r = false := by
            cases hb : shouldReplace ex r
            · rfl
            · exact absurd hb hrep
          rw [mergeStep_keep hk hl hrepf, ih]
      | none =>
        have hu0 : u0 ∉ m.map Prod.fst := (lookupKey_eq_none_iff m u0).mp hl
        rw [mergeStep_insert hk hl, ih, firstOccAux, if_neg hu0]
        rw [List.map_append]
        simp only [List.map_cons, List.map_nil]
        rw [List.append_assoc, List.singleton_append]
        congr 2
        apply firstOccAux_congr
        intro x
        simp only [List.mem_append, List.mem_singleton, List.mem_cons]
        tauto

/-- C1: for every collection of input datasets, each retained merge
entry for a url is a whole input record of that url group (no field
blending), and its first_seen is minimal, in the string order the code
uses, among the non-empty first_seen values of the group; in
particular, every group member with a first_seen is at least as late
as the retained record. -/
theorem merge_retains_earliest_first_seen (datasets : List (List CsvRow)) (u : String)
    (v : CsvRow) (hv : (u, v) ∈ mergeEntries datasets.flatten) :
    v ∈ urlGroup u datasets.flatten ∧
      ∀ r ∈ urlGroup u datasets.flatten, r.fs ≠ "" →
        (v.fs ≠ "" ∧ pyStrLt r.fs v.fs = false) :=
  (mergeEntries_inv datasets.flatten).2.2.2 u v hv

/-- C1 witness: merging the two specification-example datasets for url
u1 retains the record observed on 2024-01-01 wholesale, and it is
minimal in the group. -/
theorem merge_retains_earliest_first_seen_witness :
    rowB1 ∈ urlGroup "u1" [rowA1, rowB1] ∧
      ∀ r ∈ urlGroup "u1" [rowA1, rowB1], r.fs ≠ "" →
        (rowB1.fs ≠ "" ∧ pyStrLt r.fs rowB1.fs = false) :=
  merge_retains_earliest_first_seen [[rowA1], [rowB1]] "u1" rowB1 (by decide)

/-- C4 amended: merge groups records by url key and produces exactly
one row per distinct url in first-encounter order; records without a
url (or with an empty url) contribute no key and are dropped, not
passed through. -/
theorem merge_one_row_per_url (datasets : List (List CsvRow)) :
    (mergeEntries datasets.flatten).map Prod.fst =
      firstOccurrences (datasets.flatten.filterMap CsvRow.urlKey) ∧
    merge_csv_files datasets = (mergeEntries datasets.flatten).map Prod.snd ∧
    ∀ e ∈ mergeEntries datasets.flatten, (e.2).urlKey = some e.1 := by
  refine ⟨?_, rfl, (mergeEntries_inv datasets.flatten).2.1⟩
  rw [mergeEntries, map_fst_foldl_mergeStep]
  simp [firstOccurrences]

/-- C4 witness: two datasets of two and one rows with one overlapping
url produce exactly the two distinct urls, in first-encounter order. -/
theorem merge_one_row_per_url_witness :
    (mergeEntries [rowA1, rowB1, rowD3]).map Prod.fst = ["u1", "u3"] ∧
      firstOccurrences ([rowA1, rowB1, rowD3].filterMap CsvRow.urlKey) = ["u1", "u3"] :=
  ⟨((merge_one_row_per_url [[rowA1, rowB1], [rowD3]]).1).trans (by decide), by decide⟩

/-- C4 counterexample: merge_csv_files skips records whose url is
missing, so a dataset consisting of one url-less row merges to the
empty output instead of passing the record through as an individual
entry. -/
theorem merge_drops_urlless_rows :
    merge_csv_files [[noUrlRow]] = [] ∧ noUrlRow.url = none ∧
      ([] : List CsvRow) ≠ [noUrlRow] := by
  refine ⟨by decide, rfl, by decide⟩

/-- C10: during merge, a record carrying a non-empty first_seen always
replaces a previously retained record for its url that lacks one,
regardless of encounter order, and a record lacking first_seen never
replaces the retained record. -/
theorem merge_first_seen_presence_wins (m : List (String × CsvRow)) (u : String)
    (existing data : CsvRow) (hl : lookupKey m u = some existing)
    (hk : data.urlKey = some u) :
    (data.fs ≠ "" → existing.fs = "" → mergeStep m data = replaceKey m u data) ∧
    (data.fs = "" → mergeStep m data = m) := by
  constructor
  · intro h1 h2
    refine mergeStep_replace hk hl ?_
    rw [shouldReplace, decide_eq_true_eq]
    exact ⟨h1, Or.inl h2⟩
  · intro h1
    refine mergeStep_keep hk hl ?_
    rw [shouldReplace]
    exact decide_eq_false (fun hc => hc.1 h1)

/-- C10 witness: a stored entry for u3 without first_seen is replaced
by an incoming u3 row that has one. -/
theorem merge_first_seen_presence_wins_witness :
    mergeStep [("u3", rowD3)] rowE3 = replaceKey [("u3", rowD3)] "u3" rowE3 :=
  (merge_first_seen_presence_wins [("u3", rowD3)] "u3" rowD3 rowE3
    (by decide) (by decide)).1 (by decide) (by decide)

theorem scrapeGo_stop {fetch : Nat → FetchOutcome} {page : Nat}
    (hb : badPage fetch page = true) (n : Nat) :
    Cargurus.scrapeGo fetch page (n + 1) = ([], 1) := by
  rw [badPage] at hb
  cases hf : fetch page with
  | err => simp [Cargurus.scrapeGo, hf]
  | resp status rows =>
    rw [hf] at hb
    simp only [Bool.or_eq_true, decide_eq_true_eq] at hb
    rcases hb with hs | hr
    · simp [Cargurus.scrapeGo, hf, hs]
    · subst hr
      by_cases hs : status = 200 <;> simp [Cargurus.scrapeGo, hf, hs]

theorem scrapeGo_cont {fetch : Nat → FetchOutcome} {page : Nat}
    (hb : badPage fetch page = false) (n : Nat) :
    Cargurus.scrapeGo fetch page (n + 1) =
      (pageRows fetch page ++ (Cargurus.scrapeGo fetch (page + 1) n).1,
        (Cargurus.scrapeGo fetch (page + 1) n).2 + 1) := by
  rw [badPage] at hb
  cases hf : fetch page with
  | err => rw [hf] at hb; cases hb
  | resp status rows =>
    rw [hf] at hb
    simp only [Bool.or_eq_false_iff, decide_eq_false_iff_not, not_not] at hb
    obtain ⟨hs, hr⟩ := hb
    subst hs
    simp only [pageRows, hf, if_pos rfl]
    simp [Cargurus.scrapeGo, hf, hr]

theorem firstBadFrom_ge {fetch : Nat → FetchOutcome} :
    ∀ {n page p : Nat}, firstBadFrom fetch page n = some p → page ≤ p := by
  intro n
  induction n with
  | zero =>
    intro page p h
    simp [firstBadFrom] at h
  | succ n ih =>
    intro page p h
    rw [firstBadFrom] at h
    by_cases hb : badPage fetch page = true
    · rw [if_pos hb] at h
      injection h with h
      omega
    · have hbf : badPage fetch page = false := by
        cases hbb : badPage fetch page
        · rfl
        · exact absurd hbb hb
      rw [if_neg (by rw [hbf]; simp)] at h
      have := ih h
      omega

theorem scrapeGo_spec (fetch : Nat → FetchOutcome) :
    ∀ n page : Nat,
      (∀ p, firstBadFrom fetch page n = some p →
        Cargurus.scrapeGo fetch page n =
          ((List.range' page (p - page)).flatMap (pageRows fetch), p - page + 1)) ∧
      (firstBadFrom fetch page n = none →
        Cargurus.scrapeGo fetch page n =
          ((List.range' page n).flatMap (pageRows fetch), n)) := by
  intro n
  induction n with
  | zero =>
    intro page
    constructor
    · intro p hp
      simp [firstBadFrom] at hp
    · intro _
      simp [Cargurus.scrapeGo]
  | succ n ih =>
    intro page
    by_cases hb : badPage fetch page = true
    · have hf : firstBadFrom fetch page (n + 1) = some page := by
        rw [firstBadFrom, if_pos hb]
      constructor
      · intro p hp
        rw [hf] at hp
        injection hp with hp
        subst hp
        rw [scrapeGo_stop hb]
        simp
      · intro hnone
        rw [hf] at hnone
        cases hnone
    · have hbf : badPage fetch page = false := by
        cases hbb : badPage fetch page
        · rfl
        · exact absurd hbb hb
      have hf : firstBadFrom fetch page (n + 1) = firstBadFrom fetch (page + 1) n := by
        rw [firstBadFrom, if_neg (by rw [hbf]; simp)]
      constructor
      · intro p hp
        rw [hf] at hp
        have hge : page + 1 ≤ p := firstBadFrom_ge hp
        rw [scrapeGo_cont hbf, (ih (page + 1)).1 p hp]
        have hrange : List.range' page (p - page) =
            page :: List.range' (page + 1) (p - (page + 1)) := by
          have hsub : p - page = (p - (page + 1)) + 1 := by omega
          rw [hsub, List.range'_succ]
        rw [hrange, List.flatMap_cons, Prod.mk.injEq]
        exact ⟨rfl, by omega⟩
      · intro hnone
        rw [hf] at hnone
        rw [scrapeGo_cont hbf, (ih (page + 1)).2 hnone]
        rw [List.range'_succ, List.flatMap_cons]

/-- C7: the pagination driver stops exactly at the first page whose
fetch fails, returns a non-200 status, or parses to zero records, or
at the page cap when no such page exists; it returns the concatenated
records of every earlier page and fetches no page beyond the stopping
one (the second component counts the pages fetched). -/
theorem scrape_stops_at_first_bad_page (MAX_PAGES : Nat) (fetch : Nat → FetchOutcome) :
    (∀ p, firstBad MAX_PAGES fetch = some p →
      Cargurus.scrape MAX_PAGES fetch =
        ((List.range' 1 (p - 1)).flatMap (pageRows fetch), p)) ∧
    (firstBad MAX_PAGES fetch = none →
      Cargurus.scrape MAX_PAGES fetch =
        ((List.range' 1 MAX_PAGES).flatMap (pageRows fetch), MAX_PAGES)) := by
  constructor
  · intro p hp
    have hge : 1 ≤ p := firstBadFrom_ge hp
    rw [Cargurus.scrape, (scrapeGo_spec fetch MAX_PAGES 1).1 p hp]
    rw [Prod.mk.injEq]
    exact ⟨rfl, by omega⟩
  · intro hnone
    rw [Cargurus.scrape, (scrapeGo_spec fetch MAX_PAGES 1).2 hnone]

/-- C7 witness: with pages parsing 5, 3, and 0 records, the driver
returns the 8 records of pages one and two and fetches exactly three
pages, so page four is never attempted. -/
theorem scrape_stops_at_first_bad_page_witness :
    Cargurus.scrape 4 exampleFetch = (List.replicate 8 blankListing, 3) := by
  have h := (scrape_stops_at_first_bad_page 4 exampleFetch).1 3 (by decide)
  rw [h]
  decide

theorem runRetriesGo_requests_le (p : RetryPolicy) (method : String)
    (outcomes : Nat → Attempt) :
    ∀ budget idx, (runRetriesGo p method outcomes budget idx).1 ≤ idx + budget + 1 := by
  intro budget
  induction budget with
  | zero =>
    intro idx
    rw [runRetriesGo]
    cases outcomes idx with
    | status s hra =>
      show (if Retry.is_retry p 0 method s hra = true then
          (if p.raise_on_status = true then (idx + 1, (none : Option Nat)) else (idx + 1, some s))
        else (idx + 1, some s)).1 ≤ idx + 0 + 1
      by_cases hr : Retry.is_retry p 0 method s hra = true
      · rw [if_pos hr]
        by_cases hrs : p.raise_on_status = true
        · rw [if_pos hrs]
        · rw [if_neg hrs]
      · rw [if_neg hr]
    | connError =>
      show idx + 1 ≤ idx + 0 + 1
      omega
  | succ b ih =>
    intro idx
    rw [runRetriesGo]
    cases outcomes idx with
    | status s hra =>
      show (if Retry.is_retry p (b + 1) method s hra = true then
          runRetriesGo p method outcomes b (idx + 1)
        else (idx + 1, some s)).1 ≤ idx + (b + 1) + 1
      by_cases hr : Retry.is_retry p (b + 1) method s hra = true
      · rw [if_pos hr]
        have := ih (idx + 1)
        omega
      · rw [if_neg hr]
        show idx + 1 ≤ idx + (b + 1) + 1
        omega
    | connError =>
      show (runRetriesGo p method outcomes b (idx + 1)).1 ≤ idx + (b + 1) + 1
      have := ih (idx + 1)
      omega

theorem is_retry_503_plain (total : Nat) :
    Retry.is_retry make_session_retry total "GET" 503 false = true := by
  rw [Retry.is_retry, if_neg (by decide), if_pos (by decide)]

theorem runRetriesGo_const_503 (outcomes : Nat → Attempt)
    (h : ∀ i, outcomes i = Attempt.status 503 false) :
    ∀ budget idx, runRetriesGo make_session_retry "GET" outcomes budget idx =
      (idx + budget + 1, some 503) := by
  intro budget
  induction budget with
  | zero =>
    intro idx
    rw [runRetriesGo]
    simp only [h idx]
    rw [if_pos (is_retry_503_plain 0)]
    show (if make_session_retry.raise_on_status = true then (idx + 1, (none : Option Nat))
      else (idx + 1, some 503)) = (idx + 0 + 1, some 503)
    rw [if_neg (by decide)]
  | succ b ih =>
    intro idx
    rw [runRetriesGo]
    simp only [h idx]
    rw [if_pos (is_retry_503_plain (b + 1))]
    show runRetriesGo make_session_retry "GET" outcomes b (idx + 1) = (idx + (b + 1) + 1, some 503)
    rw [ih (idx + 1), Prod.mk.injEq]
    exact ⟨by omega, rfl⟩

theorem runRetriesGo_const_conn (outcomes : Nat → Attempt)
    (h : ∀ i, outcomes i = Attempt.connError) :
    ∀ budget idx, runRetriesGo make_session_retry "GET" outcomes budget idx =
      (idx + budget + 1, none) := by
  intro budget
  induction budget with
  | zero =>
    intro idx
    rw [runRetriesGo]
    simp only [h idx]
  | succ b ih =>
    intro idx
    rw [runRetriesGo]
    simp only [h idx]
    show runRetriesGo make_session_retry "GET" outcomes b (idx + 1) = (idx + (b + 1) + 1, none)
    rw [ih (idx + 1), Prod.mk.injEq]
    exact ⟨by omega, rfl⟩

/-- C6 amended: the session retries the forcelist statuses 429, 500,
502, 503 and 504, retries connection-level errors, and additionally
retries a 413, 429 or 503 response that carries a Retry-After header
while retry budget remains; no other status is retried, so among the
client errors only 429, and 413 with Retry-After, are ever retried.
The budget is 4 retries, hence at most 5 requests; because
raise_on_status is false, exhausting the budget on retried statuses
returns the last response (a permanent 503 endpoint yields its 503
after exactly 5 requests), while exhausted connection-level errors
yield no response; the exponential backoff component doubles per
consecutive error and is capped at 120 seconds. -/
theorem retry_policy_amended :
    (∀ total s hra, Retry.is_retry make_session_retry total "GET" s hra = true ↔
      (s ∈ ([429, 500, 502, 503, 504] : List Nat) ∨
        (total ≠ 0 ∧ hra = true ∧ s ∈ ([413, 429, 503] : List Nat)))) ∧
    (∀ total s hra, 400 ≤ s → s < 500 → s ≠ 429 → s ≠ 413 →
      Retry.is_retry make_session_retry total "GET" s hra = false) ∧
    (∀ outcomes, (runRetries make_session_retry "GET" outcomes).1 ≤ 5) ∧
    (∀ outcomes, (∀ i, outcomes i = Attempt.status 503 false) →
      runRetries make_session_retry "GET" outcomes = (5, some 503)) ∧
    (∀ outcomes, (∀ i, outcomes i = Attempt.connError) →
      runRetries make_session_retry "GET" outcomes = (5, none)) ∧
    (∀ k, 2 ≤ k → Retry.get_backoff_time make_session_retry k = min 120 (2 ^ k)) ∧
    (∀ k, Retry.get_backoff_time make_session_retry k ≤ 120) := by
  refine ⟨?_, ?_, ?_, ?_, ?_, ?_, ?_⟩
  · intro total s hra
    rw [Retry.is_retry, if_neg (by decide)]
    by_cases hf : s ∈ make_session_retry.status_forcelist
    · rw [if_pos hf]
      constructor
      · intro _
        exact Or.inl hf
      · intro _
        rfl
    · rw [if_neg hf]
      simp only [Bool.and_eq_true, decide_eq_true_eq]
      constructor
      · intro hand
        obtain ⟨⟨⟨h1, _⟩, h3⟩, h4⟩ := hand
        exact Or.inr ⟨h1, h3, h4⟩
      · intro hor
        rcases hor with hor | ⟨h1, h3, h4⟩
        · exact absurd hor hf
        · exact ⟨⟨⟨h1, rfl⟩, h3⟩, h4⟩
  · intro total s hra h1 h2 h3 h4
    rw [Retry.is_retry, if_neg (by decide)]
    have hf : ¬ s ∈ make_session_retry.status_forcelist := by
      rw [show make_session_retry.status_forcelist = [429, 500, 502, 503, 504] from rfl]
      intro hin
      simp only [List.mem_cons] at hin
      rcases hin with h | h | h | h | h | h
      · omega
      · omega
      · omega
      · omega
      · omega
      · exact absurd h (List.not_mem_nil s)
    rw [if_neg hf]
    have hra2 : ¬ s ∈ RETRY_AFTER_STATUS_CODES := by
      rw [show RETRY_AFTER_STATUS_CODES = [413, 429, 503] from rfl]
      intro hin
      simp only [List.mem_cons] at hin
      rcases hin with h | h | h | h
      · omega
      · omega
      · omega
      · exact absurd h (List.not_mem_nil s)
    simp [hra2]
  · intro outcomes
    have := runRetriesGo_requests_le make_session_retry "GET" outcomes 4 0
    simpa [runRetries, make_session_retry] using this
  · intro outcomes h
    rw [runRetries, show make_session_retry.total = 4 from rfl,
      runRetriesGo_const_503 outcomes h 4 0]
  · intro outcomes h
    rw [runRetries, show make_session_retry.total = 4 from rfl,
      runRetriesGo_const_conn outcomes h 4 0]
  · intro k hk
    rw [Retry.get_backoff_time, if_neg (by omega)]
    have h2 : make_session_retry.backoff_factor = 2 := rfl
    rw [h2]
    congr 1
    have hk1 : k = (k - 1) + 1 := by omega
    conv_rhs => rw [hk1]
    rw [pow_succ]
    exact (Nat.mul_comm _ _)
  · intro k
    rw [Retry.get_backoff_time]
    by_cases h : k ≤ 1
    · rw [if_pos h]
      omega
    · rw [if_neg h]
      exact Nat.min_le_left _ _

/-- C6 witness: 503 is retried, 413 with a Retry-After header is
retried, the third consecutive error backs off 8 seconds, and an
endpoint that always answers 503 without Retry-After is given up after
exactly 5 requests with its last 503 response returned. -/
theorem retry_policy_amended_witness :
    Retry.is_retry make_session_retry 4 "GET" 503 false = true ∧
      Retry.is_retry make_session_retry 4 "GET" 413 true = true ∧
      Retry.get_backoff_time make_session_retry 3 = 8 ∧
      runRetries make_session_retry "GET" (fun _ => Attempt.status 503 false) =
        (5, some 503) := by
  refine ⟨(retry_policy_amended.1 4 503 false).mpr (Or.inl (by decide)),
    (retry_policy_amended.1 4 413 true).mpr (Or.inr ⟨by omega, rfl, by decide⟩), ?_,
    retry_policy_amended.2.2.2.1 _ (fun _ => rfl)⟩
  rw [retry_policy_amended.2.2.2.2.2.1 3 (by omega)]
  decide

/-- C6 counterexample: 501 is a 5xx status yet is never retried (the
forcelist omits it and it is not a Retry-After status), refuting the
claim that 5xx statuses are retried; and 413, a client error other
than 429, is retried when its response carries a Retry-After header,
refuting the claim that no 4xx other than 429 is ever retried. -/
theorem retry_ignores_501 :
    ((500 ≤ 501 ∧ 501 < 600) ∧
      Retry.is_retry make_session_retry 4 "GET" 501 false = false ∧
      Retry.is_retry make_session_retry 4 "GET" 501 true = false) ∧
    ((400 ≤ 413 ∧ 413 < 500 ∧ 413 ≠ 429) ∧
      Retry.is_retry make_session_retry 4 "GET" 413 true = true) := by
  decide

/-- C8 amended: craigslist and cars.com records carry first_seen set
at normalization to the current UTC time at seconds precision, while
every cargurus record produced by _row_from_item carries no first_seen
at all (the field is only added downstream when absent). -/
theorem normalization_first_seen (item : RawItem) (now : String)
    (title : Option String) (price mileage : Option Nat)
    (dealer location url : Option String) :
    (Cargurus._row_from_item item).first_seen = none ∧
    (Craigslist.rowFromItem now title price location url).first_seen = some now ∧
    (Carscom.rowFromCard now title price mileage dealer location url).first_seen = some now :=
  ⟨rfl, rfl, rfl⟩

/-- C8 counterexample: a fully populated cargurus listing item
normalizes to a record whose first_seen is absent, contradicting the
claim that every normalized record carries a first_seen timestamp. -/
theorem cargurus_row_lacks_first_seen :
    (Cargurus._row_from_item exampleItem).first_seen = none ∧
      (Cargurus._row_from_item exampleItem).title = some "2019 Honda Civic" ∧
      (Cargurus._row_from_item exampleItem).price = some 5000 := by
  decide

theorem char_toNat_ofNat_small {n : Nat} (h : n < 55296) : (Char.ofNat n).toNat = n := by
  have hv : n.isValidChar := Or.inl h
  rw [Char.ofNat, dif_pos hv]
  simp [Char.ofNatAux, Char.toNat, UInt32.ofNat', UInt32.toNat]

theorem pyLower_toNat (c : Char) :
    (pyLower c).toNat = if 65 ≤ c.toNat ∧ c.toNat ≤ 90 then c.toNat + 32 else c.toNat := by
  rw [pyLower]
  by_cases h : 65 ≤ c.toNat ∧ c.toNat ≤ 90
  · rw [if_pos h, if_pos h, char_toNat_ofNat_small (by omega)]
  · rw [if_neg h, if_neg h]

theorem pyLower_eq_self {c : Char} (h : ¬(65 ≤ c.toNat ∧ c.toNat ≤ 90)) : pyLower c = c := by
  rw [pyLower, if_neg h]

theorem pyAlpha_iff (c : Char) :
    pyAlpha c = true ↔ ((65 ≤ c.toNat ∧ c.toNat ≤ 90) ∨ (97 ≤ c.toNat ∧ c.toNat ≤ 122)) := by
  rw [pyAlpha, decide_eq_true_eq]

theorem pyDigit_iff (c : Char) : pyDigit c = true ↔ (48 ≤ c.toNat ∧ c.toNat ≤ 57) := by
  rw [pyDigit, decide_eq_true_eq]

theorem pyAlpha_pyLower {c : Char} (h : pyAlpha c = true) : pyAlpha (pyLower c) = true := by
  rw [pyAlpha_iff] at h ⊢
  rw [pyLower_toNat]
  rcases h with h | h
  · rw [if_pos h]
    omega
  · rw [if_neg (by omega)]
    omega

theorem pyLower_idem (c : Char) : pyLower (pyLower c) = pyLower c := by
  by_cases h : 65 ≤ c.toNat ∧ c.toNat ≤ 90
  · apply pyLower_eq_self
    rw [pyLower_toNat, if_pos h]
    omega
  · rw [pyLower_eq_self h, pyLower_eq_self h]

theorem scheme_char_toNat {c : Char} (h : scheme_char c = true) :
    43 ≤ c.toNat ∧ c.toNat ≤ 122 := by
  rw [scheme_char] at h
  simp only [Bool.or_eq_true, beq_iff_eq] at h
  rcases h with ((((h | h) | h) | h) | h)
  · rw [pyAlpha_iff] at h
    omega
  · rw [pyDigit_iff] at h
    omega
  · subst h
    decide
  · subst h
    decide
  · subst h
    decide

theorem scheme_char_safe {c : Char} (h : scheme_char c = true) : safeChar c = true := by
  have h2 := scheme_char_toNat h
  have t1 : c ≠ '\t' := by
    intro he
    subst he
    exact absurd h2 (by decide)
  have t2 : c ≠ '\r' := by
    intro he
    subst he
    exact absurd h2 (by decide)
  have t3 : c ≠ '\n' := by
    intro he
    subst he
    exact absurd h2 (by decide)
  simp only [safeChar, Bool.not_eq_true', Bool.or_eq_false_iff, beq_eq_false_iff_ne]
  exact ⟨⟨t1, t2⟩, t3⟩

theorem scheme_char_ne_colon {c : Char} (h : scheme_char c = true) : c ≠ ':' := by
  intro he
  subst he
  exact absurd h (by decide)

theorem scheme_char_pyLower {c : Char} (h : scheme_char c = true) :
    scheme_char (pyLower c) = true := by
  rw [scheme_char] at h ⊢
  simp only [Bool.or_eq_true, beq_iff_eq] at h ⊢
  rcases h with ((((h | h) | h) | h) | h)
  · exact Or.inl (Or.inl (Or.inl (Or.inl (pyAlpha_pyLower h))))
  · refine Or.inl (Or.inl (Or.inl (Or.inr ?_)))
    rw [pyLower_eq_self (by rw [pyDigit_iff] at h; omega)]
    exact h
  · refine Or.inl (Or.inl (Or.inr ?_))
    subst h
    exact pyLower_eq_self (by decide)
  · refine Or.inl (Or.inr ?_)
    subst h
    exact pyLower_eq_self (by decide)
  · refine Or.inr ?_
    subst h
    exact pyLower_eq_self (by decide)

theorem all_scheme_char_map_pyLower {l : List Char} (h : l.all scheme_char = true) :
    (l.map pyLower).all scheme_char = true := by
  rw [List.all_eq_true] at h ⊢
  intro x hx
  rw [List.mem_map] at hx
  obtain ⟨y, hy, rfl⟩ := hx
  exact scheme_char_pyLower (h y hy)

theorem map_pyLower_idem (l : List Char) : (l.map pyLower).map pyLower = l.map pyLower := by
  rw [List.map_map]
  exact List.map_congr_left (fun a _ => pyLower_idem a)

theorem splitColon_append {s : List Char} (t : List Char) (hs : ∀ d ∈ s, d ≠ ':') :
    splitColon (s ++ ':' :: t) = some (s, t) := by
  induction s with
  | nil => simp [splitColon]
  | cons c cs ih =>
    have hc : ¬(c = ':') := hs c (List.mem_cons_self c cs)
    rw [List.cons_append, splitColon, if_neg hc,
      ih (fun d hd => hs d (List.mem_cons_of_mem c hd))]

theorem parseScheme_cons {c : Char} {cs : List Char} (rest : List Char)
    (hα : pyAlpha c = true) (hall : (c :: cs).all scheme_char = true) :
    parseScheme ((c :: cs) ++ ':' :: rest) = ((c :: cs).map pyLower, rest) := by
  have hnc : ∀ d ∈ c :: cs, d ≠ ':' :=
    fun d hd => scheme_char_ne_colon (List.all_eq_true.mp hall d hd)
  simp only [parseScheme, splitColon_append rest hnc]
  rw [if_pos (by rw [hα, hall]; rfl)]

theorem takeWhile_dropWhile_append {p : Char → Bool} {a b : List Char}
    (ha : ∀ d ∈ a, p d = true)
    (hb : b = [] ∨ ∃ c t, b = c :: t ∧ p c = false) :
    (a ++ b).takeWhile p = a ∧ (a ++ b).dropWhile p = b := by
  induction a with
  | nil =>
    simp only [List.nil_append]
    rcases hb with rfl | ⟨c, t, rfl, hc⟩
    · simp
    · rw [List.takeWhile_cons, List.dropWhile_cons, if_neg (by rw [hc]; exact Bool.false_ne_true),
        if_neg (by rw [hc]; exact Bool.false_ne_true)]
      exact ⟨rfl, rfl⟩
  | cons c cs ih =>
    have hc := ha c (List.mem_cons_self c cs)
    obtain ⟨h1, h2⟩ := ih (fun d hd => ha d (List.mem_cons_of_mem c hd))
    rw [List.cons_append, List.takeWhile_cons, List.dropWhile_cons, if_pos hc, if_pos hc, h1, h2]
    exact ⟨rfl, rfl⟩

theorem takeWhile_append_all {p : Char → Bool} {a : List Char} (b : List Char)
    (ha : ∀ d ∈ a, p d = true) :
    (a ++ b).takeWhile p = a ++ b.takeWhile p := by
  induction a with
  | nil => simp
  | cons c cs ih =>
    have hc := ha c (List.mem_cons_self c cs)
    rw [List.cons_append, List.takeWhile_cons, if_pos hc,
      ih (fun d hd => ha d (List.mem_cons_of_mem c hd)), List.cons_append]

theorem contains_eq_false {l : List Char} {ch : Char} (h : ∀ d ∈ l, d ≠ ch) :
    l.contains ch = false := by
  cases hb : l.contains ch
  · rfl
  · exact absurd (List.elem_iff.mp hb) (fun hm => h ch hm rfl)

theorem contains_of_mem {l : List Char} {ch : Char} (h : ch ∈ l) : l.contains ch = true :=
  List.elem_iff.mpr h

theorem path_extract {p : List Char} (x : List Char)
    (hp : ∀ d ∈ p, d ≠ '#' ∧ d ≠ '?')
    (hx : x = [] ∨ (∃ t, x = '#' :: t) ∨ (∃ t, x = '?' :: t)) :
    (splitQuery (splitFragment (p ++ x)).1).1 = p := by
  have hqp : ∀ d ∈ p, (fun c => !(c == '?')) d = true := by
    intro d hd
    simp [(hp d hd).2]
  have hfp : ∀ d ∈ p, (fun c => !(c == '#')) d = true := by
    intro d hd
    simp [(hp d hd).1]
  rcases hx with rfl | ⟨t, rfl⟩ | ⟨t, rfl⟩
  · rw [List.append_nil]
    have hc : p.contains '#' = false := contains_eq_false (fun d hd => (hp d hd).1)
    rw [splitFragment, if_neg (by rw [hc]; exact Bool.false_ne_true)]
    have hq : p.contains '?' = false := contains_eq_false (fun d hd => (hp d hd).2)
    rw [splitQuery, if_neg (by rw [hq]; exact Bool.false_ne_true)]
  · have hcontains : (p ++ '#' :: t).contains '#' = true := contains_of_mem (by simp)
    rw [splitFragment, if_pos hcontains]
    have htw := (takeWhile_dropWhile_append hfp (Or.inr ⟨'#', t, rfl, by simp⟩)).1
    simp only [htw]
    have hq : p.contains '?' = false := contains_eq_false (fun d hd => (hp d hd).2)
    rw [splitQuery, if_neg (by rw [hq]; exact Bool.false_ne_true)]
  · by_cases hc : (p ++ '?' :: t).contains '#' = true
    · rw [splitFragment, if_pos hc]
      have htw := takeWhile_append_all ('?' :: t) hfp
      simp only [htw, List.takeWhile_cons, if_pos (show (!('?' == '#')) = true by decide)]
      have hq : (p ++ '?' :: t.takeWhile fun c => !(c == '#')).contains '?' = true :=
        contains_of_mem (by simp)
      rw [splitQuery, if_pos hq]
      exact (takeWhile_dropWhile_append hqp (Or.inr ⟨'?', _, rfl, by simp⟩)).1
    · have hcf : (p ++ '?' :: t).contains '#' = false := by
        cases hb : (p ++ '?' :: t).contains '#'
        · rfl
        · exact absurd hb hc
      rw [splitFragment, if_neg (by rw [hcf]; exact Bool.false_ne_true)]
      have hq : (p ++ '?' :: t).contains '?' = true := contains_of_mem (by simp)
      rw [splitQuery, if_pos hq]
      exact (takeWhile_dropWhile_append hqp (Or.inr ⟨'?', t, rfl, by simp⟩)).1

theorem canonical_build (c : Char) (cs n p x : List Char)
    (hα : pyAlpha c = true) (hs : (c :: cs).all scheme_char = true)
    (hn0 : n ≠ [])
    (hn : ∀ d ∈ n, netloc_delim d = false ∧ safeChar d = true ∧ d ≠ '[' ∧ d ≠ ']')
    (hp : ∀ d ∈ p, d ≠ '#' ∧ d ≠ '?' ∧ safeChar d = true)
    (hp0 : p = [] ∨ p.take 1 = ['/'])
    (hx : x = [] ∨ (∃ t, x = '#' :: t) ∨ (∃ t, x = '?' :: t)) :
    canonical_url ((c :: cs) ++ ':' :: '/' :: '/' :: (n ++ (p ++ x))) =
      some (((c :: cs).map pyLower) ++ ':' :: '/' :: '/' :: (n ++ p)) := by
  have hx2 : scrubBytes x = [] ∨ (∃ t, scrubBytes x = '#' :: t) ∨
      (∃ t, scrubBytes x = '?' :: t) := by
    rcases hx with rfl | ⟨t, rfl⟩ | ⟨t, rfl⟩
    · exact Or.inl rfl
    · refine Or.inr (Or.inl ⟨scrubBytes t, ?_⟩)
      rw [scrubBytes, List.filter_cons_of_pos (by decide)]
      rfl
    · refine Or.inr (Or.inr ⟨scrubBytes t, ?_⟩)
      rw [scrubBytes, List.filter_cons_of_pos (by decide)]
      rfl
  have hclean : scrubBytes (lstripControl ((c :: cs) ++ ':' :: '/' :: '/' :: (n ++ (p ++ x)))) =
      (c :: cs) ++ ':' :: '/' :: '/' :: (n ++ (p ++ scrubBytes x)) := by
    have hchead : ¬(decide (c.toNat ≤ 32) = true) := by
      rw [decide_eq_true_eq]
      rw [pyAlpha_iff] at hα
      omega
    have hsafe_s : List.filter safeChar (c :: cs) = c :: cs :=
      List.filter_eq_self.mpr (fun d hd => scheme_char_safe (List.all_eq_true.mp hs d hd))
    have hsafe_n : List.filter safeChar n = n :=
      List.filter_eq_self.mpr (fun d hd => (hn d hd).2.1)
    have hsafe_p : List.filter safeChar p = p :=
      List.filter_eq_self.mpr (fun d hd => (hp d hd).2.2)
    rw [lstripControl, List.cons_append, List.dropWhile_cons, if_neg hchead, ← List.cons_append]
    rw [scrubBytes, List.filter_append, hsafe_s, List.filter_cons_of_pos (by decide),
      List.filter_cons_of_pos (by decide), List.filter_cons_of_pos (by decide),
      List.filter_append, hsafe_n, List.filter_append, hsafe_p]
    rfl
  have hsp : parseScheme ((c :: cs) ++ ':' :: '/' :: '/' :: (n ++ (p ++ scrubBytes x))) =
      ((c :: cs).map pyLower, '/' :: '/' :: (n ++ (p ++ scrubBytes x))) :=
    parseScheme_cons _ hα hs
  have hnd : ∀ d ∈ n, (fun ch => !netloc_delim ch) d = true := by
    intro d hd
    simp [(hn d hd).1]
  have hb : (p ++ scrubBytes x) = [] ∨
      ∃ ch t2, (p ++ scrubBytes x) = ch :: t2 ∧ (!netloc_delim ch) = false := by
    rcases hp0 with rfl | hp1
    · simp only [List.nil_append]
      rcases hx2 with he | ⟨t, he⟩ | ⟨t, he⟩
      · rw [he]
        exact Or.inl rfl
      · rw [he]
        exact Or.inr ⟨'#', t, rfl, by decide⟩
      · rw [he]
        exact Or.inr ⟨'?', t, rfl, by decide⟩
    · cases p with
      | nil => simp at hp1
      | cons c0 p0 =>
        have hc0 : c0 = '/' := by simpa using hp1
        subst hc0
        exact Or.inr ⟨'/', p0 ++ scrubBytes x, rfl, by decide⟩
  have htw := takeWhile_dropWhile_append hnd hb
  have hbr1 : n.contains '[' = false := contains_eq_false (fun d hd => (hn d hd).2.2.1)
  have hbr2 : n.contains ']' = false := contains_eq_false (fun d hd => (hn d hd).2.2.2)
  have hpath := path_extract (scrubBytes x)
    (fun d hd => ⟨(hp d hd).1, (hp d hd).2.1⟩) hx2
  have htake2 : ('/' :: '/' :: (n ++ (p ++ scrubBytes x))).take 2 = ['/', '/'] := rfl
  have hdrop2 : ('/' :: '/' :: (n ++ (p ++ scrubBytes x))).drop 2 =
      n ++ (p ++ scrubBytes x) := rfl
  rw [canonical_url]
  simp only [urlsplit, hclean, hsp]
  rw [htake2, if_pos rfl, hdrop2, htw.1, htw.2, hbr1, hbr2, if_neg (by decide)]
  simp only [Option.map_some']
  rw [hpath]
  simp only [urlunsplit]
  rw [if_pos (Or.inl hn0)]
  have hpre : ¬(p ≠ [] ∧ p.take 1 ≠ ['/']) := by
    rcases hp0 with rfl | hp1
    · intro h
      exact h.1 rfl
    · intro h
      exact h.2 hp1
  rw [if_neg hpre, if_neg (by simp), if_neg (by simp),
    if_pos (by simp : ((c :: cs).map pyLower) ≠ [])]
  simp [List.append_assoc]

/-- C2 amended: on every well-formed absolute URL, written as a scheme
of scheme characters starting with an ASCII letter, a non-empty
bracket-free host without delimiters, an absolute-or-empty path free
of hash and question marks, and an optional query-or-fragment suffix,
canonical_url succeeds, removes the query and fragment, keeps the host
and path exactly and the scheme up to ASCII lowercasing; and applying
canonical_url to its own output returns the output unchanged, so
canonicalization is idempotent on well-formed absolute URLs. -/
theorem canonical_url_wellformed_idempotent (c : Char) (cs n p x : List Char)
    (hα : pyAlpha c = true) (hs : (c :: cs).all scheme_char = true)
    (hn0 : n ≠ [])
    (hn : ∀ d ∈ n, netloc_delim d = false ∧ safeChar d = true ∧ d ≠ '[' ∧ d ≠ ']')
    (hp : ∀ d ∈ p, d ≠ '#' ∧ d ≠ '?' ∧ safeChar d = true)
    (hp0 : p = [] ∨ p.take 1 = ['/'])
    (hx : x = [] ∨ (∃ t, x = '#' :: t) ∨ (∃ t, x = '?' :: t)) :
    canonical_url ((c :: cs) ++ ':' :: '/' :: '/' :: (n ++ (p ++ x))) =
      some (((c :: cs).map pyLower) ++ ':' :: '/' :: '/' :: (n ++ p)) ∧
    canonical_url (((c :: cs).map pyLower) ++ ':' :: '/' :: '/' :: (n ++ p)) =
      some (((c :: cs).map pyLower) ++ ':' :: '/' :: '/' :: (n ++ p)) := by
  refine ⟨canonical_build c cs n p x hα hs hn0 hn hp hp0 hx, ?_⟩
  have h2 := canonical_build (pyLower c) (cs.map pyLower) n p []
    (pyAlpha_pyLower hα)
    (by rw [← List.map_cons]; exact all_scheme_char_map_pyLower hs)
    hn0 hn hp hp0 (Or.inl rfl)
  rw [List.append_nil, ← List.map_cons, map_pyLower_idem] at h2
  exact h2

/-- C2 witness: the specification example url with a query and a
fragment canonicalizes to scheme, host and path only, and
canonicalizing the result again returns it unchanged. -/
theorem canonical_url_wellformed_idempotent_witness :
    canonical_url ("https://x.com/a?b=1#c".toList) = some ("https://x.com/a".toList) ∧
      canonical_url ("https://x.com/a".toList) = some ("https://x.com/a".toList) := by
  have h := canonical_url_wellformed_idempotent 'h' "ttps".toList "x.com".toList
    "/a".toList "?b=1#c".toList (by decide) (by decide) (by decide) (by decide)
    (by decide) (Or.inr (by decide)) (Or.inr (Or.inr ⟨"b=1#c".toList, by decide⟩))
  exact ⟨h.1, h.2⟩

/-- C2 counterexample: canonical_url does not keep the scheme exactly
(an uppercase scheme is lowercased), and on arbitrary strings it is
not idempotent: one pathological input canonicalizes successfully to a
string on which canonicalization fails with the invalid-IPv6 error. -/
theorem canonical_url_claim_counterexample :
    (canonical_url ("HTTP://x.com/a".toList) = some ("http://x.com/a".toList) ∧
      "http://x.com/a".toList ≠ "HTTP://x.com/a".toList) ∧
    (canonical_url ("////[x".toList) = some ("//[x".toList) ∧
      canonical_url ("//[x".toList) = none) := by
  exact ⟨⟨by decide, by decide⟩, ⟨by decide, by decide⟩⟩

theorem carscom_keepRow_eq (pm mm ym : Nat) (r : Listing) :
    Carscom.keepRow pm mm ym r =
      (priceWithin pm r && (mileageWithin mm r && yearOk ym r.title)) := by
  unfold Carscom.keepRow priceWithin mileageWithin
  cases hp : r.price <;> cases hm : r.mileage <;> simp only [hp, hm]
  · simp
  · rename_i m
    by_cases hgt : m > mm
    · have : ¬ (m ≤ mm) := by omega
      simp [hgt, this]
    · have : m ≤ mm := by omega
      simp [hgt, this]
  · rename_i p
    by_cases hgt : p > pm
    · have : ¬ (p ≤ pm) := by omega
      simp [hgt, this]
    · have : p ≤ pm := by omega
      simp [hgt, this]
  · rename_i p m
    by_cases hgt : p > pm
    · have : ¬ (p ≤ pm) := by omega
      simp [hgt, this]
    · have hle : p ≤ pm := by omega
      by_cases hgm : m > mm
      · have : ¬ (m ≤ mm) := by omega
        simp [hgt, hgm, hle, this]
      · have : m ≤ mm := by omega
        simp [hgt, hgm, hle, this]

theorem craigslist_keepRow_eq (pm ym : Nat) (r : Listing) :
    Craigslist.keepRow pm ym r = (priceWithin pm r && yearOk ym r.title) := by
  unfold Craigslist.keepRow priceWithin
  cases hp : r.price <;> simp only [hp]
  · simp
  · rename_i p
    by_cases hgt : p > pm
    · have : ¬ (p ≤ pm) := by omega
      simp [hgt, this]
    · have : p ≤ pm := by omega
      simp [hgt, this]

/-- C5 amended: the cars.com (and cargurus) filter applies the price
and mileage ceilings with numeric comparisons and keeps records with
unknown values (fail open); the craigslist filter applies only the
price ceiling in the same fail-open way and performs no mileage test
at all. -/
theorem filter_by_config_ceilings (pm mm ym : Nat) (rows : List Listing) (r : Listing) :
    (r ∈ Carscom.filter_by_config pm mm ym rows ↔
      (r ∈ rows ∧ priceWithin pm r = true ∧ mileageWithin mm r = true ∧
        yearOk ym r.title = true))
  ∧ (r ∈ Craigslist.filter_by_config pm ym rows ↔
      (r ∈ rows ∧ priceWithin pm r = true ∧ yearOk ym r.title = true)) := by
  constructor
  · rw [Carscom.filter_by_config, List.mem_filter, carscom_keepRow_eq]
    simp [and_assoc]
  · rw [Craigslist.filter_by_config, List.mem_filter, craigslist_keepRow_eq]
    simp [and_assoc]

/-- C5 witness: a concrete record below the price ceiling and below the
mileage ceiling is kept by the cars.com filter. -/
theorem filter_by_config_ceilings_witness :
    cheapRow ∈ Carscom.filter_by_config 1000 100000 0 [cheapRow] :=
  (filter_by_config_ceilings 1000 100000 0 [cheapRow] cheapRow).1.mpr
    ⟨by decide, by decide, by decide, by decide⟩

/-- C5 counterexample: the craigslist filter_by_config performs no
mileage comparison, so a record whose known mileage (999999) exceeds
the mileage ceiling (100000 here) is still kept, contradicting the
claim that the filter excludes records whose known mileage exceeds
mileage_max. -/
theorem craigslist_filter_ignores_mileage :
    Craigslist.filter_by_config 1000 0 [highMileageRow] = [highMileageRow] ∧
      highMileageRow.mileage = some 999999 ∧
      mileageWithin 100000 highMileageRow = false := by
  decide

/-- C9: the year check of filter_by_config fails a record exactly when
its title has at least four characters, the first four are all digits,
and the four-digit number they form is below YEAR_MIN; in every other
case (missing or short title, non-digit among the first four) the
record passes the year check. -/
theorem year_check_fails_iff (ym : Nat) (title : Option String) :
    yearOk ym title = false ↔
      (4 ≤ (title.getD "").toList.length ∧
        (∀ c ∈ (title.getD "").toList.take 4, pyDigit c = true) ∧
        digitsToNat ((title.getD "").toList.take 4) < ym) := by
  rw [yearOk]
  by_cases h4 : (((title.getD "").toList.take 4).filter pyDigit).length = 4
  · have hle : (((title.getD "").toList.take 4).filter pyDigit).length ≤
        ((title.getD "").toList.take 4).length :=
      List.length_filter_le _ _
    have hlt4 : ((title.getD "").toList.take 4).length ≤ 4 := by
      have h := List.length_take 4 (title.getD "").toList
      omega
    have htk : ((title.getD "").toList.take 4).length = 4 := by omega
    have hfe : ((title.getD "").toList.take 4).filter pyDigit =
        (title.getD "").toList.take 4 :=
      (List.filter_sublist _).eq_of_length (by omega)
    have hlen4 : 4 ≤ (title.getD "").toList.length := by
      have h := List.length_take 4 (title.getD "").toList
      omega
    rw [if_pos h4, hfe]
    by_cases hlt : digitsToNat ((title.getD "").toList.take 4) < ym
    · rw [if_pos hlt]
      constructor
      · intro _
        refine ⟨hlen4, ?_, hlt⟩
        intro c hc
        rw [← hfe] at hc
        exact (List.mem_filter.mp hc).2
      · intro _
        rfl
    · rw [if_neg hlt]
      constructor
      · intro h
        exact absurd h (by simp)
      · intro h
        exact absurd h.2.2 hlt
  · rw [if_neg h4]
    constructor
    · intro h
      exact absurd h (by simp)
    · intro h
      exfalso
      have hfe : ((title.getD "").toList.take 4).filter pyDigit =
          (title.getD "").toList.take 4 :=
        List.filter_eq_self.mpr h.2.1
      have htk : ((title.getD "").toList.take 4).length = 4 := by
        have hl := List.length_take 4 (title.getD "").toList
        omega
      rw [hfe] at h4
      exact h4 htk

/-- C9 witness: a title beginning with the four digits 1999 fails the
year check against YEAR_MIN 2000. -/
theorem year_check_fails_iff_witness :
    yearOk 2000 (some "1999 Honda") = false :=
  (year_check_fails_iff 2000 (some "1999 Honda")).mpr
    ⟨by decide, by decide, by decide⟩

end CarScrape
